import Mathlib

/-!
Shallow embedding of the core render pipeline of the `react-clone` repository
(hook tree, hook library, virtual-tree builder, reconciler prop diffing,
scheduler and suspense subsystem), together with theorems settling the
spec claims about it.

JS conventions used throughout the embedding:
* a hook cell holds `unknown`, which includes `undefined`; a cell value is
  modelled as `Option α`, with `none` standing for `undefined`;
* a JS array used as a queue is a `List`, `push` appending at the end;
* object identity of functions / promises is modelled by a numeric id.
-/

namespace ReactClone

/-! ### Hook tree: update queue (`React.tsx`, `enqueueUpdate` / `processNodeUpdates`) -/

/-- A pending update enqueued by `enqueueUpdate(update, index, hookNode)`:
the pushed closure reads `hookNode.hooks[index]`, applies `update` to it and
writes the result back.  The thunk operates on the raw cell content, which may
be `undefined` (`none`). -/
structure QueuedUpdate (α : Type) where
  index : Nat
  update : Option α → Option α

/-- Read `hooks[i]`; out-of-range reads yield `undefined`, as in JS. -/
def jsArrayGet {α : Type} (xs : List (Option α)) (i : Nat) : Option α :=
  xs.getD i none

/-- Write `hooks[i] = v`; JS arrays grow on out-of-range writes, padding the
gap with `undefined`. -/
def jsArraySet {α : Type} (xs : List (Option α)) (i : Nat) (v : Option α) :
    List (Option α) :=
  if i < xs.length then xs.set i v
  else xs ++ List.replicate (i - xs.length) none ++ [v]

/-- Run one queued update thunk against the hooks array:
`hooks[index] = update(hooks[index])`. -/
def applyQueuedUpdate {α : Type} (hooks : List (Option α))
    (u : QueuedUpdate α) : List (Option α) :=
  jsArraySet hooks u.index (u.update (jsArrayGet hooks u.index))

/-- The drain loop of `processNodeUpdates`:
`let update = node.updateQueue.pop(); while (update) { update(); update = node.updateQueue.pop(); }`.
`Array.pop` removes the LAST element, so the most recently enqueued thunk runs
first; on `u :: rest` all of `rest` (the later pushes) is drained before `u`. -/
def popDrain {α : Type} (hooks : List (Option α)) :
    List (QueuedUpdate α) → List (Option α)
  | [] => hooks
  | u :: rest => applyQueuedUpdate (popDrain hooks rest) u

/-- Drain in FIFO order — modelled from the spec's words for `flush()`
("drain its queue into its hooks in FIFO order"), for comparison with the
source's `popDrain`. -/
def fifoDrain {α : Type} (hooks : List (Option α))
    (queue : List (QueuedUpdate α)) : List (Option α) :=
  queue.foldl applyQueuedUpdate hooks

/-- A hook node of the hook tree, with the fields `processNodeUpdates` touches
(`id`, `hooks`, `updateQueue`, `children`); cursor and contexts are modelled
separately where needed. -/
inductive HookNode (α : Type) : Type where
  | node (id : String) (hooks : List (Option α))
      (updateQueue : List (QueuedUpdate α)) (children : List (HookNode α))

/-- Hooks array of a node. -/
def HookNode.hooksOf {α : Type} : HookNode α → List (Option α)
  | .node _ h _ _ => h

/-- Pending queue of a node. -/
def HookNode.queueOf {α : Type} : HookNode α → List (QueuedUpdate α)
  | .node _ _ q _ => q

/-- `processNodeUpdates(node)`: drain the node's own queue (pop order), then
recurse into every child. -/
def processNodeUpdates {α : Type} : HookNode α → HookNode α
  | .node i h q cs =>
      .node i (popDrain h q) []
        (cs.attach.map (fun c => processNodeUpdates c.val))
termination_by n => sizeOf n
decreasing_by
  simp only [HookNode.node.sizeOf_spec]
  have := List.sizeOf_lt_of_mem c.property
  omega

/-! ### Component identity (`generateComponentId` and `hash` in `React.tsx`) -/

/-- An element tag: either an intrinsic tag string or a component function,
the latter carrying its `name` and its source text (`toString()`). -/
inductive Tag where
  | str (s : String)
  | fn (name : String) (source : String)
deriving DecidableEq

/-- `typeof tag === "function" ? tag.name || "Anonymous" : tag`. -/
def tagNameOf : Tag → String
  | .str s => s
  | .fn n _ => if n = "" then "Anonymous" else n

/-- `typeof tag === "function" ? tag.toString().slice(0, 5) : tag`. -/
def tagIdentifierOf : Tag → String
  | .str s => s
  | .fn _ src => src.take 5

/-- ToInt32 coercion performed by `hash & hash` and `<<` in JS. -/
def toInt32 (x : Int) : Int :=
  let m := x % 4294967296
  if m < 2147483648 then m else m - 4294967296

/-- One step of the string hash: `hash = (hash << 5) - hash + char; hash = hash & hash`. -/
def jsHashStep (h : Int) (c : Nat) : Int :=
  toInt32 (toInt32 (h * 32) - h + c)

/-- Digit character for base 36 (`0`-`9` then `a`-`z`). -/
def base36Digit (d : Nat) : Char :=
  if d < 10 then Char.ofNat (48 + d) else Char.ofNat (87 + d)

/-- `n.toString(36)` for a nonnegative number. -/
def natToBase36 (n : Nat) : String :=
  if n < 36 then String.mk [base36Digit n]
  else natToBase36 (n / 36) ++ String.mk [base36Digit (n % 36)]
decreasing_by
  exact Nat.div_lt_self (by omega) (by omega)

/-- The `hash` helper: fold `jsHashStep` over the char codes, then
`Math.abs(hash).toString(36)`; the empty string hashes to `"0"`. -/
def jsHash (s : String) : String :=
  if s.length = 0 then "0"
  else natToBase36 (s.data.foldl (fun h c => jsHashStep h c.toNat) 0).natAbs

/-- `generateComponentId(tag, props, parentId)`: joins
`[tagName, key, tagIdentifier].filter(Boolean)` with `-` and hashes the
result.  The `parentId` parameter is accepted exactly as in the source.
`props.key` is modelled as `Option String` (`none` = absent); `filter(Boolean)`
drops absent and empty-string parts. -/
def generateComponentId (tag : Tag) (key : Option String) (parentId : String) :
    String :=
  let parts := ([some (tagNameOf tag), key, some (tagIdentifierOf tag)].filterMap id).filter
    (fun s => s ≠ "")
  jsHash (String.intercalate "-" parts)

/-! ### useState (`ReactHooks.tsx`) -/

/-- The `initialState` argument of `useState`: a value or a zero-argument
factory (`invoked if callable`). -/
inductive InitialState (α : Type) where
  | value (v : α)
  | thunk (f : Unit → α)

/-- Evaluate an initial state the way `useState` does on an empty cell. -/
def evalInitial {α : Type} : InitialState α → α
  | .value v => v
  | .thunk f => f ()

/-- The render-time path of `useState`: read the bound cell; if it holds
`undefined`, compute the initial value and store it via `setStateForIndex`;
return the value and the resulting cell content. -/
def useStateRender {α : Type} (cell : Option α) (initialState : InitialState α) :
    α × Option α :=
  match cell with
  | some s => (s, some s)
  | none =>
      let s := evalInitial initialState
      (s, some s)

/-! ### Scheduler and the S1 counter (`ReactDOM.tsx` `renderRoot` / `rerender`,
`ReactHooks.tsx` `useState`'s `setState`)

The S1 scenario instance: one component holding one `useState(0)` cell whose
rendered output is the state value as text.  A pass (`renderRoot`) builds the
tree (running the component, hence `useState`) and reconciles, committing the
text to the DOM; `rerender` first drains every queue (`flushUpdate`) and then
runs a pass.  `setState(value)` enqueues a constant thunk and immediately
calls `ReactDOM.rerender()`. -/

/-- Runtime state of the mounted counter app: the component's hooks array and
pending queue (its hook node), the history of texts committed to the DOM by
successive reconciliations, and the number of completed passes. -/
structure CounterApp where
  hooks : List (Option Nat)
  updateQueue : List (QueuedUpdate Nat)
  commits : List String
  passes : Nat

/-- `enqueueUpdate`: push the wrapped thunk at the end of the node's queue. -/
def enqueueUpdate {α : Type} (update : Option α → Option α) (index : Nat)
    (queue : List (QueuedUpdate α)) : List (QueuedUpdate α) :=
  queue ++ [⟨index, update⟩]

/-- `flushUpdate` for the counter's node: drain the queue in the pop order of
`processNodeUpdates` and reset it. -/
def flushApp (app : CounterApp) : CounterApp :=
  { app with hooks := popDrain app.hooks app.updateQueue, updateQueue := [] }

/-- One render pass over the counter: run the component (its `useState(0)`
call against cell 0), commit its text to the DOM and count the pass. -/
def renderRootCounter (app : CounterApp) : CounterApp :=
  let r := useStateRender (jsArrayGet app.hooks 0) (.value 0)
  { app with
      hooks := jsArraySet app.hooks 0 r.2
      commits := app.commits ++ [toString r.1]
      passes := app.passes + 1 }

/-- `ReactDOM.rerender()`: `React.flushUpdate(); renderRoot(_root, _container)` —
synchronous, with no coalescing of requests. -/
def rerenderCounter (app : CounterApp) : CounterApp :=
  renderRootCounter (flushApp app)

/-- The setter returned by `useState` for a non-function argument:
`React.enqueueUpdate(() => newState, hookIndex, hookNode); ReactDOM.rerender()`. -/
def setStateConst (v : Nat) (app : CounterApp) : CounterApp :=
  rerenderCounter
    { app with updateQueue := enqueueUpdate (fun _ => some v) 0 app.updateQueue }

/-- Mounting the counter: initial `renderRoot` over an empty hook node. -/
def counterMount : CounterApp :=
  renderRootCounter ⟨[], [], [], 0⟩

/-! ### Dependency comparison and useEffect / useMemo (`ReactHooks.tsx`) -/

/-- `dependenciesChanged(prev, current)` of `ReactHooks.tsx`: `undefined` prev
(`none`) or a length mismatch means changed; two empty arrays are unchanged;
otherwise strict elementwise comparison.  Dependency values are modelled as
`Int` with `=` for JS `===`. -/
def dependenciesChanged (prev : Option (List Int)) (current : List Int) : Bool :=
  match prev with
  | none => true
  | some p =>
      if p.length ≠ current.length then true
      else if p.length = 0 ∧ current.length = 0 then false
      else ¬ ((current.zip p).all (fun d => d.1 = d.2))

/-- A user effect callback, denotationally: running it emits `events` and
returns `cleanup` — `none` when the callback returns no cleanup function, or
the list of events that running the returned cleanup emits. -/
structure EffectCallback (ε : Type) where
  events : List ε
  cleanup : Option (List ε)

/-- The cell stored by `useEffect`: `[dependencies, newCleanupFunction]`. -/
def EffectCell (ε : Type) : Type := List Int × Option (List ε)

/-- One render-time execution of `useEffect(callback, dependencies)` against
its cell: when the deps changed (or there is no cell), run the stored cleanup
if any, then the callback, and store `[dependencies, newCleanup]`; otherwise
do nothing.  Returns the new cell and the events emitted, in order. -/
def useEffectRun {ε : Type} (cell : Option (EffectCell ε))
    (callback : EffectCallback ε) (deps : List Int) :
    Option (EffectCell ε) × List ε :=
  let prevDependencies : Option (List Int) := cell.map (fun c => c.1)
  let prevCleanup : Option (List ε) :=
    match cell with
    | some c => c.2
    | none => none
  if dependenciesChanged prevDependencies deps then
    (some (deps, callback.cleanup), prevCleanup.getD [] ++ callback.events)
  else
    (cell, [])

/-- Result of one `useMemo(factory, deps)` execution: the returned value, the
resulting cell, and how many times `factory` was invoked during the call. -/
structure MemoResult (α : Type) where
  value : α
  cell : Option (List Int × α)
  factoryCalls : Nat

/-- One render-time execution of `useMemo(factory, dependencies)`.  When the
cell is `undefined`, the destructuring default
`prevState || [[], factory()]` evaluates `factory()` eagerly and yields
`prevDependencies = []`; the cell is stored (by `setStateForIndex`) only in
the deps-changed branch. -/
def useMemoRun {α : Type} (cell : Option (List Int × α)) (factory : Unit → α)
    (deps : List Int) : MemoResult α :=
  match cell with
  | none =>
      let memoizedValue := factory ()
      if dependenciesChanged (some []) deps then
        let value := factory ()
        { value := value, cell := some (deps, value), factoryCalls := 2 }
      else
        { value := memoizedValue, cell := none, factoryCalls := 1 }
  | some (prevDependencies, memoizedValue) =>
      if dependenciesChanged (some prevDependencies) deps then
        let value := factory ()
        { value := value, cell := some (deps, value), factoryCalls := 1 }
      else
        { value := memoizedValue, cell := some (prevDependencies, memoizedValue),
          factoryCalls := 0 }

/-! ### Pass structure (`ReactDOM.tsx` `renderRoot`) with an event trace

`renderRoot` runs `startRender`, builds the virtual tree — user components,
and hence every `useEffect` call, execute inside this build —, then
`reconcile`s, then `finishRender` and returns to the caller.  A trace of
markers interleaved with the user-visible effect events records when, within
the pass, the effects actually run. -/

/-- Observable pass events: the phase markers of `renderRoot` plus the events
emitted by user effect callbacks and cleanups. -/
inductive PassEvent (ε : Type) where
  | buildStarted
  | userEvent (e : ε)
  | buildFinished
  | reconcileDone
  | passReturned
deriving DecidableEq

/-- One `renderRoot` pass over a component holding a single
`useEffect(callback, deps)` call: the effect executes inside the build of the
virtual tree (while the component function runs); reconciliation and the
return to the host happen strictly afterwards. -/
def renderPassTrace {ε : Type} (cell : Option (EffectCell ε))
    (callback : EffectCallback ε) (deps : List Int) :
    Option (EffectCell ε) × List (PassEvent ε) :=
  let r := useEffectRun cell callback deps
  (r.1,
    [PassEvent.buildStarted] ++ r.2.map PassEvent.userEvent ++
      [PassEvent.buildFinished, PassEvent.reconcileDone, PassEvent.passReturned])

/-- Event alphabet of the S2 effect-cleanup scenario. -/
inductive S2Event where
  | setup (dep : Int)
  | cleanup (dep : Int)
deriving DecidableEq

/-- The S2 component's effect callback for a given `dep`: running it emits
`setup dep` and returns a cleanup that emits `cleanup dep`. -/
def s2Callback (dep : Int) : EffectCallback S2Event :=
  ⟨[S2Event.setup dep], some [S2Event.cleanup dep]⟩

/-- Recognizer for cleanup events. -/
def isCleanupEvent : S2Event → Bool
  | .cleanup _ => true
  | _ => false

/-- Recognizer for setup events. -/
def isSetupEvent : S2Event → Bool
  | .setup _ => true
  | _ => false

/-- A hook node as `cleanupNodeSubtree` sees it for a component whose hooks
are effect cells. -/
structure EffectNode (ε : Type) where
  hooks : List (Option (EffectCell ε))

/-- `cleanupNodeSubtree(node)` on unmount: `node.hooks = []`,
`node.updateQueue = []`, `node.contexts.clear()` — the stored cleanup
functions are discarded without being invoked, so no events are emitted. -/
def cleanupNodeSubtree {ε : Type} (node : EffectNode ε) :
    EffectNode ε × List ε :=
  (⟨[]⟩, [])

/-- Run the S2 scenario: one render pass per entry of `depSeq` of a component
calling `useEffect(s2Callback, [dep])`, then unmount the component
(`cleanupNodeSubtree` on its node); collect every emitted event in order. -/
def s2Run (depSeq : List Int) : List S2Event :=
  let final := depSeq.foldl
    (fun (acc : Option (EffectCell S2Event) × List S2Event) d =>
      let r := useEffectRun acc.1 (s2Callback d) [d]
      (r.1, acc.2 ++ r.2))
    (none, [])
  let unmounted := cleanupNodeSubtree (ε := S2Event) ⟨[final.1]⟩
  final.2 ++ unmounted.2

/-- Phase-marker recognizers for pass traces. -/
def isBuildFinished {ε : Type} : PassEvent ε → Bool
  | .buildFinished => true
  | _ => false

/-- Recognizer for the reconciliation marker. -/
def isReconcileDone {ε : Type} : PassEvent ε → Bool
  | .reconcileDone => true
  | _ => false

/-! ### Reconciler prop diffing (`ReactDOM.tsx` `updateElement`) -/

/-- A prop value, discriminated the way `updateElement` needs:
a string, a function (event listener, by identity), a style object, or a ref
object (by identity). -/
inductive PropVal where
  | str (s : String)
  | handler (id : Nat)
  | styleMap (m : List (String × String))
  | refObj (id : Nat)
deriving DecidableEq

/-- Stand-in for the JS `String(value)` coercion used by `setAttribute`. -/
def propValToString : PropVal → String
  | .str s => s
  | .handler i => "function:" ++ toString i
  | .styleMap _ => "object:style"
  | .refObj i => "object:ref" ++ toString i

/-- A prop map, in `Object.keys` order. -/
def PropMap : Type := List (String × PropVal)

/-- `name in props`. -/
def propIn (props : PropMap) (name : String) : Bool :=
  props.any (fun p => p.1 = name)

/-- `props[name]`: first binding wins, `undefined` when absent. -/
def propGet (props : PropMap) (name : String) : Option PropVal :=
  (props.find? (fun p => p.1 = name)).map (fun p => p.2)

/-- The mutable state of a live DOM element that `updateElement` touches:
class, inline style (last `cssText` assignment plus individually assigned
properties), attributes, registered event listeners, and which ref object was
last given the element. -/
structure DomElementState where
  className : String
  styleCss : String
  styleProps : List (String × String)
  attrs : List (String × String)
  listeners : List (String × Nat)
  refAssigned : Option Nat
deriving DecidableEq

/-- Lower-case a character the way `toLowerCase` does for ASCII. -/
def jsLowerChar (c : Char) : Char :=
  if c.isUpper then Char.ofNat (c.toNat + 32) else c

/-- Character-list implementation of `startsWith`, kept kernel-reducible. -/
def strStartsWith (s pre : String) : Bool :=
  pre.data.isPrefixOf s.data

/-- `name.toLowerCase().substring(2)` — the DOM event type of an `on*` prop. -/
def eventTypeOf (name : String) : String :=
  String.mk ((name.data.map jsLowerChar).drop 2)

/-- `removeEventListener(type, handler)`: drop the matching registration. -/
def removeListener (el : DomElementState) (ty : String) (h : Nat) :
    DomElementState :=
  { el with listeners := el.listeners.filter (fun p => ¬(p.1 = ty ∧ p.2 = h)) }

/-- `addEventListener(type, handler)`: a duplicate (type, handler) pair is a
no-op, as in the DOM. -/
def addListener (el : DomElementState) (ty : String) (h : Nat) :
    DomElementState :=
  if (ty, h) ∈ el.listeners then el
  else { el with listeners := el.listeners ++ [(ty, h)] }

/-- Upsert an entry of an association list, keeping first-set order. -/
def upsert (m : List (String × String)) (k v : String) :
    List (String × String) :=
  if m.any (fun p => p.1 = k) then m.map (fun p => if p.1 = k then (k, v) else p)
  else m ++ [(k, v)]

/-- `Object.keys(oldProps)` loop body of `updateElement`: the removal branch.
The source reads `if (name === "children" || !(name in newProps)) continue;`,
so the branch runs only for props also present in `newProps`. -/
def removeOldPropStep (newProps : PropMap) (el : DomElementState)
    (name : String) (v : PropVal) : DomElementState :=
  if name = "__source" ∨ name = "__self" then el
  else if name = "children" ∨ ¬ propIn newProps name then el
  else if strStartsWith name "on" then
    match v with
    | .handler h => removeListener el (eventTypeOf name) h
    | _ => el
  else if name = "className" then { el with className := "" }
  else if name = "style" then { el with styleCss := "", styleProps := [] }
  else { el with attrs := el.attrs.filter (fun p => p.1 ≠ name) }

/-- `Object.keys(newProps)` loop body of `updateElement`: the set branch. -/
def setNewPropStep (oldProps : PropMap) (el : DomElementState)
    (name : String) (v : PropVal) : DomElementState :=
  if name = "__source" ∨ name = "__self" then el
  else if name = "children" then el
  else if strStartsWith name "on" then
    let ty := eventTypeOf name
    let el1 :=
      match propGet oldProps name with
      | some (.handler h) => removeListener el ty h
      | _ => el
    match v with
    | .handler h => addListener el1 ty h
    | _ => el1
  else if name = "className" then
    { el with className := match v with | .str s => s | _ => propValToString v }
  else if name = "style" then
    match v with
    | .str s => { el with styleCss := s, styleProps := [] }
    | .styleMap m => { el with styleProps := m.foldl (fun acc p => upsert acc p.1 p.2) el.styleProps }
    | _ => el
  else if name = "ref" then
    match v with
    | .refObj i => { el with refAssigned := some i }
    | _ => el
  else { el with attrs := upsert el.attrs name (propValToString v) }

/-- `updateElement(element, oldProps, newProps)` for a reused intrinsic DOM
element: the removal loop over the old props followed by the set loop over
the new props. -/
def updateElement (el : DomElementState) (oldProps newProps : PropMap) :
    DomElementState :=
  let afterRemove := oldProps.foldl
    (fun acc p => removeOldPropStep newProps acc p.1 p.2) el
  newProps.foldl (fun acc p => setNewPropStep oldProps acc p.1 p.2) afterRemove

/-- Removal phase as the spec words it — "for every prop present in old but
not new (excluding `children`, `__self`, `__source`), remove it" — modelled
from the spec for comparison with the source's `updateElement`. -/
def specRemovePhase (el : DomElementState) (oldProps newProps : PropMap) :
    DomElementState :=
  oldProps.foldl
    (fun acc p =>
      if p.1 = "__source" ∨ p.1 = "__self" ∨ p.1 = "children" ∨ propIn newProps p.1 then acc
      else if strStartsWith p.1 "on" then
        match p.2 with
        | .handler h => removeListener acc (eventTypeOf p.1) h
        | _ => acc
      else if p.1 = "className" then { acc with className := "" }
      else if p.1 = "style" then { acc with styleCss := "", styleProps := [] }
      else { acc with attrs := acc.attrs.filter (fun q => q.1 ≠ p.1) })
    el

/-! ### Virtual-tree builder, suspense case (`ReactDOM.tsx` `createVirtualTree`) -/

/-- An element, restricted to the shapes the suspense claim exercises: null,
a primitive, an intrinsic, a suspense boundary with its fallback, and guarded
children whose build throws — a pending-promise record (a composite calling
`use` on an unresolved resource) or a plain user error. -/
inductive Elem where
  | nullE
  | prim (s : String)
  | intrinsic (tag : String) (children : List Elem)
  | suspense (fallback : Elem) (children : List Elem)
  | throwsPending (key : String)
  | throwsUser (msg : String)

/-- A virtual node.  `nullV` is a JS `null` sitting inside a children array
(possible only in the fallback slot, which the source does not filter). -/
inductive VNode where
  | nullV
  | text (nodeValue : String)
  | elem (tag : String) (children : List VNode)
  | susp (children : List VNode)

/-- What a build can throw: the `{ promise, key }` pending record (detected by
`"promise" in e`) or any other error. -/
inductive BuildThrow where
  | pending (key : String)
  | user (msg : String)
deriving DecidableEq

mutual

/-- `createVirtualTree(component)`, restricted to the cases of `Elem`.  The
suspense case builds the guarded children inside a `try`; when that throws a
pending record the partial children are discarded and the fallback is built
in their place (unfiltered, so a null fallback yields `[nullV]`); any other
throw is re-raised.  Hook-tree bookkeeping (`enterComponent` / `exitComponent`
/ cache creation) mutates no state the produced tree depends on and is left
implicit. -/
def createVirtualTree : Elem → Except BuildThrow (Option VNode)
  | .nullE => .ok none
  | .prim s => .ok (some (.text s))
  | .intrinsic tag cs =>
      match buildChildren cs with
      | .error e => .error e
      | .ok kids => .ok (some (.elem tag kids))
  | .suspense fb cs =>
      match buildChildren cs with
      | .error (.pending _) =>
          match createVirtualTree fb with
          | .error e => .error e
          | .ok fbv => .ok (some (.susp [fbv.getD .nullV]))
      | .error (.user m) => .error (.user m)
      | .ok kids => .ok (some (.susp kids))
  | .throwsPending k => .error (.pending k)
  | .throwsUser m => .error (.user m)

/-- The child loop: build each child in order, keep the non-null results,
propagate the first throw. -/
def buildChildren : List Elem → Except BuildThrow (List VNode)
  | [] => .ok []
  | c :: cs =>
      match createVirtualTree c with
      | .error e => .error e
      | .ok v =>
          match buildChildren cs with
          | .error e => .error e
          | .ok rest =>
              match v with
              | some vn => .ok (vn :: rest)
              | none => .ok rest

end

/-! ### Suspense subsystem (`React.tsx` `createResource`) -/

/-- A resource-cache entry: a still-pending promise (by identity) or the
resolved value written back by the `then` handler. -/
inductive CacheEntry where
  | pending (pid : Nat)
  | value (v : Nat)
deriving DecidableEq

/-- The per-boundary resource cache plus the observables the claim counts:
how often the resource factory has been invoked and how many re-renders the
`then` handlers have requested. -/
structure ResourceState where
  cache : List (String × CacheEntry)
  factoryCalls : Nat
  rerenders : Nat
deriving DecidableEq

/-- `cache.has(key)`. -/
def cacheHas (cache : List (String × CacheEntry)) (key : String) : Bool :=
  cache.any (fun p => p.1 = key)

/-- `cache.get(key)`. -/
def cacheGet (cache : List (String × CacheEntry)) (key : String) :
    Option CacheEntry :=
  (cache.find? (fun p => p.1 = key)).map (fun p => p.2)

/-- `cache.set(key, entry)`. -/
def cacheSet (cache : List (String × CacheEntry)) (key : String)
    (entry : CacheEntry) : List (String × CacheEntry) :=
  if cacheHas cache key then
    cache.map (fun p => if p.1 = key then (key, entry) else p)
  else cache ++ [(key, entry)]

/-- The thrown `{ promise, key }` record. -/
structure PendingRecord where
  promise : Nat
  key : String
deriving DecidableEq

/-- `createResource(promiseFn, hookNode)` against the nearest boundary cache:
if the key is absent, invoke the factory (allocating a fresh promise identity,
numbered by the invocation count), store the promise and fall through; then
read the entry back — a promise is thrown as `{ promise, key }`, a resolved
value is returned. -/
def createResource (key : String) (st : ResourceState) :
    ResourceState × Except PendingRecord Nat :=
  let st1 :=
    if cacheHas st.cache key then st
    else
      { st with
          cache := cacheSet st.cache key (.pending st.factoryCalls)
          factoryCalls := st.factoryCalls + 1 }
  match cacheGet st1.cache key with
  | some (.pending pid) => (st1, .error ⟨pid, key⟩)
  | some (.value v) => (st1, .ok v)
  | none => (st1, .error ⟨0, key⟩)

/-- The `then` handler attached on first invocation:
`promiseCache.set(key, data); ReactDOM.rerender()`. -/
def resolveResource (key : String) (v : Nat) (st : ResourceState) :
    ResourceState :=
  { st with cache := cacheSet st.cache key (.value v)
            rerenders := st.rerenders + 1 }

/-- Events touching one cache key: a render-time `createResource` call, or the
promise settling. -/
inductive ResourceOp where
  | call
  | resolve (v : Nat)
deriving DecidableEq

/-- Apply one resource event to the state. -/
def resourceStep (key : String) (st : ResourceState) : ResourceOp → ResourceState
  | .call => (createResource key st).1
  | .resolve v => resolveResource key v st

/-- Run a sequence of resource events. -/
def runResourceOps (key : String) (ops : List ResourceOp) (st : ResourceState) :
    ResourceState :=
  ops.foldl (resourceStep key) st

/-- Run a sequence of resource events, also collecting the outcome of each
`createResource` call. -/
def runResourceOpsTrace (key : String) (ops : List ResourceOp)
    (st : ResourceState) : ResourceState × List (Except PendingRecord Nat) :=
  match ops with
  | [] => (st, [])
  | .call :: rest =>
      let r := createResource key st
      let t := runResourceOpsTrace key rest r.1
      (t.1, r.2 :: t.2)
  | .resolve v :: rest => runResourceOpsTrace key rest (resolveResource key v st)

/-! ## Theorems settling the claims -/

/-- C1: the claim says `processNodeUpdates` applies the queued thunks in FIFO
order.  It does not: the drain loop uses `Array.pop`, so thunks run in LIFO
order.  On a cell holding `0` with the queue `[() => 5, x => x + 1]` (in push
order), the source leaves `5` (it applies `x + 1` first, then the constant
`5`), while a FIFO drain leaves `6`. -/
theorem processNodeUpdates_applies_updates_in_lifo_order :
    (processNodeUpdates (HookNode.node "n" [some 0]
        [⟨0, fun _ => some 5⟩, ⟨0, fun x => x.map (· + 1)⟩] [])).hooksOf = [some 5] ∧
    fifoDrain [some 0] [⟨0, fun _ => some 5⟩, ⟨0, fun x => x.map (· + 1)⟩] = [some 6] ∧
    [some 5] ≠ [some (6 : Nat)] := by
  refine ⟨?_, by decide, by decide⟩
  simp [processNodeUpdates, HookNode.hooksOf, popDrain, applyQueuedUpdate,
    jsArrayGet, jsArraySet]

/-- C2: the claim says every prop present in the old props but absent from the
new props is removed from the DOM element.  The source's removal loop reads
`if (name === "children" || !(name in newProps)) continue;`, skipping exactly
the stale props, so nothing is ever removed: on an element with class `"a"`,
attribute `title="t"` and a `click` listener, diffing those old props against
empty new props leaves the element unchanged, while the spec's removal phase
clears all three. -/
theorem updateElement_does_not_remove_stale_props :
    updateElement ⟨"a", "", [], [("title", "t")], [("click", 7)], none⟩
        [("className", .str "a"), ("title", .str "t"), ("onClick", .handler 7)] [] =
      ⟨"a", "", [], [("title", "t")], [("click", 7)], none⟩ ∧
    specRemovePhase ⟨"a", "", [], [("title", "t")], [("click", 7)], none⟩
        [("className", .str "a"), ("title", .str "t"), ("onClick", .handler 7)] [] =
      ⟨"", "", [], [], [], none⟩ := by
  constructor <;> decide

/-- C3: the claim says component ids computed under hook nodes with different
parent ids differ.  `generateComponentId` accepts `parentId` but never uses
it: the id is a function of the tag name, the key and the tag source prefix
alone, so any two parents yield the same id. -/
theorem generateComponentId_ignores_parentId :
    (∀ (tag : Tag) (key : Option String) (p q : String),
        generateComponentId tag key p = generateComponentId tag key q) ∧
    generateComponentId (.fn "C" "function C() ...") none "parent-1" =
      generateComponentId (.fn "C" "function C() ...") none "parent-2" :=
  ⟨fun _ _ _ _ => rfl, rfl⟩

/-- C7: the claim says `useMemo` with deps elementwise equal to the previous
call's deps — including the empty-deps case — returns the memoized value
without invoking the factory.  For empty deps the destructuring default
`prevState || [[], factory()]` invokes the factory eagerly and the unchanged
branch never stores the cell, so every render invokes the factory once and the
cell stays `undefined`. -/
theorem useMemo_empty_deps_invokes_factory_every_render :
    (useMemoRun (α := Nat) none (fun _ => 42) []).factoryCalls = 1 ∧
    (useMemoRun (α := Nat) none (fun _ => 42) []).cell = none ∧
    (useMemoRun (useMemoRun (α := Nat) none (fun _ => 42) []).cell
        (fun _ => 42) []).factoryCalls = 1 := by
  refine ⟨by decide, by decide, by decide⟩

/-- C10: whenever the bound hook cell holds `undefined` — in particular after
a queued setter write of `undefined` was flushed in the previous pass —
`useState` re-initializes the cell from its initial argument (invoking it if
it is a function) and returns that initial value. -/
theorem useState_reinitializes_undefined_cell {α : Type} (init : InitialState α)
    (prev : Option α) :
    useStateRender (jsArrayGet (popDrain [prev] [⟨0, fun _ => none⟩]) 0) init =
      (evalInitial init, some (evalInitial init)) ∧
    useStateRender (none : Option α) init =
      (evalInitial init, some (evalInitial init)) := by
  exact ⟨by cases prev <;> rfl, rfl⟩

/-- Helper: after the mount pass and `k + 1` synchronous setter calls, the
counter has rendered `k + 2` times, committing once per pass. -/
lemma counter_iterate (v : Nat) (k : Nat) :
    (setStateConst v)^[k + 1] counterMount =
      { hooks := [some v], updateQueue := [],
        commits := "0" :: List.replicate (k + 1) (toString v),
        passes := k + 2 } := by
  induction k with
  | zero =>
      simp [counterMount, setStateConst, rerenderCounter, flushApp,
        renderRootCounter, enqueueUpdate, popDrain, applyQueuedUpdate,
        jsArrayGet, jsArraySet, useStateRender, evalInitial]
      decide
  | succ n ih =>
      rw [Function.iterate_succ_apply', ih]
      simp [setStateConst, rerenderCounter, flushApp, renderRootCounter,
        enqueueUpdate, popDrain, applyQueuedUpdate, jsArrayGet, jsArraySet,
        useStateRender, List.replicate_succ']

/-- C4 counterexample: the claim says seven synchronous `setValue(n + 1)` calls
coalesce into a single later pass whose DOM shows `7`.  In the source each
setter call immediately flushes and re-renders: after the mount pass
(committing `0`), seven synchronous calls with the captured `n = 0` perform
seven further passes, each committing `1`, and the final DOM text is `1`. -/
theorem setState_seven_calls_seven_passes :
    ((setStateConst 1)^[7] counterMount).passes = 8 ∧
    ((setStateConst 1)^[7] counterMount).commits =
      ["0", "1", "1", "1", "1", "1", "1", "1"] ∧
    ((setStateConst 1)^[7] counterMount).commits.getLast? = some "1" := by
  refine ⟨by decide, by decide, by decide⟩

/-- C4 amended: re-render requests are not coalesced — every useState setter
call synchronously flushes the queue and runs one full build plus reconcile
pass, committing to the DOM, so `k + 1` synchronous `setValue(v)` calls after
mount yield `k + 2` passes whose commit history is `0` followed by `k + 1`
copies of `v`. -/
theorem setState_triggers_immediate_pass_per_call (v k : Nat) :
    ((setStateConst v)^[k + 1] counterMount).passes = k + 2 ∧
    ((setStateConst v)^[k + 1] counterMount).commits =
      "0" :: List.replicate (k + 1) (toString v) := by
  rw [counter_iterate]
  exact ⟨rfl, rfl⟩

/-- Helper: user effect events pass the take-while predicate that stops at the
build-finished marker. -/
lemma takeWhile_userEvents {ε : Type} (evs : List ε) (rest : List (PassEvent ε)) :
    ((evs.map PassEvent.userEvent) ++ rest).takeWhile (fun e => !isBuildFinished e) =
      evs.map PassEvent.userEvent ++ rest.takeWhile (fun e => !isBuildFinished e) := by
  induction evs with
  | nil => rfl
  | cons a t ih => simp [List.takeWhile_cons, isBuildFinished, ih]

/-- Helper: user effect events are all dropped by the drop-while that stops at
the reconciliation marker. -/
lemma dropWhile_userEvents {ε : Type} (evs : List ε) (rest : List (PassEvent ε)) :
    ((evs.map PassEvent.userEvent) ++ rest).dropWhile (fun e => !isReconcileDone e) =
      rest.dropWhile (fun e => !isReconcileDone e) := by
  induction evs with
  | nil => rfl
  | cons a t ih => simp [List.dropWhile_cons, isReconcileDone, ih]

/-- C5 counterexample: the claim says the effect callback runs only after the
pass's reconciliation.  For a fresh cell (deps always differ), the pass trace
shows the callback's event strictly before the build finishes — the effect
runs while the virtual tree is being built, before reconciliation. -/
theorem effect_runs_during_build_cex :
    (renderPassTrace (ε := Unit) none ⟨[()], none⟩ []).2 =
      [PassEvent.buildStarted, PassEvent.userEvent (), PassEvent.buildFinished,
        PassEvent.reconcileDone, PassEvent.passReturned] ∧
    PassEvent.userEvent () ∈
      ((renderPassTrace (ε := Unit) none ⟨[()], none⟩ []).2.takeWhile
        (fun e => !isReconcileDone e)) := by
  constructor <;> decide

/-- C5 amended: for every `useEffect` whose deps differ from the stored deps
(or that has no previous cell), the callback runs synchronously during the
build of the virtual tree, at the point of the `useEffect` call; after the
reconciliation marker nothing remains of the pass but the return. -/
theorem effects_run_during_build_before_reconcile {ε : Type}
    (cell : Option (EffectCell ε)) (cb : EffectCallback ε) (deps : List Int) :
    ((renderPassTrace cell cb deps).2.takeWhile (fun e => !isBuildFinished e)) =
      PassEvent.buildStarted :: (useEffectRun cell cb deps).2.map PassEvent.userEvent ∧
    ((renderPassTrace cell cb deps).2.dropWhile (fun e => !isReconcileDone e)) =
      [PassEvent.reconcileDone, PassEvent.passReturned] := by
  unfold renderPassTrace
  constructor
  · simp [List.takeWhile_cons, isBuildFinished, takeWhile_userEvents]
  · simp [List.dropWhile_cons, isReconcileDone, dropWhile_userEvents]

/-- C6 counterexample: the claim says the S2 scenario (render `dep = 1`, render
`dep = 1`, render `dep = 2`, unmount) yields setup 2, cleanup 2, ending with
`cleanup(2)` at unmount.  The source's `cleanupNodeSubtree` discards the hook
cells without invoking stored cleanups, so the trace is
`setup(1), cleanup(1), setup(2)` — cleanup count 1, not 2. -/
theorem effect_scenario_cleanup_count_cex :
    s2Run [1, 1, 2] = [S2Event.setup 1, S2Event.cleanup 1, S2Event.setup 2] ∧
    (s2Run [1, 1, 2]).countP (fun e => isCleanupEvent e) = 1 ∧
    (s2Run [1, 1, 2]).countP (fun e => isCleanupEvent e) ≠ 2 := by
  refine ⟨by decide, by decide, by decide⟩

/-- C6 amended: cleanup runs exactly once per deps-change with a prior setup
and never without one, but not on unmount: the S2 scenario yields the order
`setup(1), cleanup(1), setup(2)` with counts setup 2 and cleanup 1, and
unmounting a node emits no cleanup events at all. -/
theorem effect_cleanup_on_deps_change_not_on_unmount :
    s2Run [1, 1, 2] = [S2Event.setup 1, S2Event.cleanup 1, S2Event.setup 2] ∧
    (s2Run [1, 1, 2]).countP (fun e => isSetupEvent e) = 2 ∧
    (s2Run [1, 1, 2]).countP (fun e => isCleanupEvent e) = 1 ∧
    (∀ (ε : Type) (node : EffectNode ε), (cleanupNodeSubtree node).2 = []) := by
  refine ⟨by decide, by decide, by decide, fun _ _ => rfl⟩

/-- C8: the subtree a suspense boundary produces is all-or-nothing — when the
build of the boundary succeeds, its children are either exactly the fully
built guarded children (no child threw a pending record), or exactly the
built fallback with every partially built child discarded. -/
theorem suspense_subtree_all_or_nothing (fb : Elem) (cs : List Elem) (v : VNode)
    (h : createVirtualTree (.suspense fb cs) = .ok (some v)) :
    (∃ kids, buildChildren cs = .ok kids ∧ v = .susp kids) ∨
    (∃ k fbv, buildChildren cs = .error (.pending k) ∧
        createVirtualTree fb = .ok fbv ∧ v = .susp [fbv.getD .nullV]) := by
  cases hcs : buildChildren cs with
  | ok kids =>
      left
      simp only [createVirtualTree, hcs] at h
      exact ⟨kids, rfl, by simpa using h.symm⟩
  | error e =>
      cases e with
      | pending k =>
          simp only [createVirtualTree, hcs] at h
          cases hfb : createVirtualTree fb with
          | ok fbv =>
              right
              simp only [hfb] at h
              exact ⟨k, fbv, rfl, rfl, by simpa using h.symm⟩
          | error e2 => simp [hfb] at h
      | user m => simp only [createVirtualTree, hcs] at h; exact absurd h (by simp)

/-- Witness for the all-or-nothing theorem at a concrete boundary: guarded
children `[prim a, throwsPending k, prim b]` with fallback `prim load` build
to exactly the fallback subtree, discarding the partially built `a`. -/
theorem suspense_subtree_all_or_nothing_witness :
    (∃ kids, buildChildren [Elem.prim "a", Elem.throwsPending "k", Elem.prim "b"] =
        .ok kids ∧ VNode.susp [VNode.text "load"] = VNode.susp kids) ∨
    (∃ k fbv,
        buildChildren [Elem.prim "a", Elem.throwsPending "k", Elem.prim "b"] =
          .error (.pending k) ∧
        createVirtualTree (Elem.prim "load") = .ok fbv ∧
        VNode.susp [VNode.text "load"] = VNode.susp [fbv.getD VNode.nullV]) :=
  suspense_subtree_all_or_nothing (Elem.prim "load")
    [Elem.prim "a", Elem.throwsPending "k", Elem.prim "b"]
    (VNode.susp [VNode.text "load"]) rfl

/-- Helper: setting a cache key leaves it present. -/
lemma cacheHas_cacheSet (c : List (String × CacheEntry)) (k : String)
    (e : CacheEntry) : cacheHas (cacheSet c k e) k = true := by
  by_cases h : cacheHas c k
  · rw [cacheSet, if_pos h]
    rw [cacheHas, List.any_eq_true]
    rw [cacheHas, List.any_eq_true] at h
    obtain ⟨p, hp, hpk⟩ := h
    refine ⟨(k, e), List.mem_map.mpr ⟨p, hp, ?_⟩, by simp⟩
    simp only [decide_eq_true_eq] at hpk
    simp [hpk]
  · rw [cacheSet, if_neg h]
    rw [cacheHas, List.any_eq_true]
    exact ⟨(k, e), by simp, by simp⟩

/-- Helper: the state `createResource` returns. -/
lemma createResource_fst (key : String) (st : ResourceState) :
    (createResource key st).1 =
      if cacheHas st.cache key then st
      else { st with cache := cacheSet st.cache key (.pending st.factoryCalls),
                     factoryCalls := st.factoryCalls + 1 } := by
  unfold createResource
  split <;> (dsimp only; split <;> rfl)

/-- Helper: once the key is cached, one step keeps it cached and never invokes
the factory. -/
lemma resourceStep_of_has (key : String) (st : ResourceState) (op : ResourceOp)
    (h : cacheHas st.cache key = true) :
    cacheHas (resourceStep key st op).cache key = true ∧
    (resourceStep key st op).factoryCalls = st.factoryCalls := by
  cases op with
  | call =>
      show cacheHas (createResource key st).1.cache key = true ∧
        (createResource key st).1.factoryCalls = st.factoryCalls
      rw [createResource_fst, if_pos h]
      exact ⟨h, rfl⟩
  | resolve v => exact ⟨cacheHas_cacheSet _ _ _, rfl⟩

/-- Helper: once the key is cached, any event sequence leaves the invocation
count unchanged. -/
lemma runResourceOps_calls_of_has (key : String) (ops : List ResourceOp)
    (st : ResourceState) (h : cacheHas st.cache key = true) :
    (runResourceOps key ops st).factoryCalls = st.factoryCalls := by
  induction ops generalizing st with
  | nil => rfl
  | cons op rest ih =>
      have hs := resourceStep_of_has key st op h
      calc (runResourceOps key (op :: rest) st).factoryCalls
          = (runResourceOps key rest (resourceStep key st op)).factoryCalls := rfl
        _ = (resourceStep key st op).factoryCalls := ih _ hs.1
        _ = st.factoryCalls := hs.2

/-- C9: `createResource` invokes the resource factory at most once per cache
key over any sequence of render-time calls and promise settlements; in the S4
scenario from the empty cache, the first call stores the promise and throws
the pending record, the second call throws the same record without invoking
the factory, and after resolution the call returns the cached value — with
exactly one factory invocation in total. -/
theorem createResource_invokes_factory_at_most_once (key : String)
    (ops : List ResourceOp) (st : ResourceState) :
    (runResourceOps key ops st).factoryCalls ≤
      st.factoryCalls + (if cacheHas st.cache key then 0 else 1) ∧
    (runResourceOpsTrace "k" [.call, .call, .resolve 7, .call] ⟨[], 0, 0⟩).2 =
      [.error ⟨0, "k"⟩, .error ⟨0, "k"⟩, .ok 7] ∧
    (runResourceOps "k" [.call, .call, .resolve 7, .call] ⟨[], 0, 0⟩).factoryCalls
      = 1 := by
  refine ⟨?_, by rfl, by decide⟩
  by_cases h : cacheHas st.cache key
  · rw [runResourceOps_calls_of_has key ops st h, if_pos h]
    omega
  · rw [if_neg h]
    cases ops with
    | nil => exact Nat.le_succ _
    | cons op rest =>
        have step1 : runResourceOps key (op :: rest) st =
            runResourceOps key rest (resourceStep key st op) := rfl
        rw [step1]
        cases op with
        | call =>
            have hhas : cacheHas (resourceStep key st .call).cache key = true := by
              show cacheHas (createResource key st).1.cache key = true
              rw [createResource_fst, if_neg h]
              exact cacheHas_cacheSet _ _ _
            rw [runResourceOps_calls_of_has key rest _ hhas]
            show (createResource key st).1.factoryCalls ≤ st.factoryCalls + 1
            rw [createResource_fst, if_neg h]
        | resolve v =>
            have hhas : cacheHas (resourceStep key st (.resolve v)).cache key
                = true := cacheHas_cacheSet _ _ _
            rw [runResourceOps_calls_of_has key rest _ hhas]
            exact Nat.le_succ _

end ReactClone
